import Mathlib

/-!
Shallow embedding of the genetic graph-coloring program (main.go) and proofs
about the claims of its specification.

Randomness is modeled by explicit choice streams: every call the program makes
to the pseudorandom source is replaced by reading a value from a stream that is
a parameter of the embedded function.  A stream value standing for the result
of drawing an integer below `k` is constrained to be below `k` in the theorem
hypotheses, which is exactly the guarantee the source gives for such a draw.
The crossover loop of the program can fail to terminate (its stride can be 0),
so its embedding takes a fuel argument and returns `none` when the fuel runs
out; lemmas below show that the chosen fuel is exact, in the sense that the
loop either finishes within it or never finishes at all.
-/

/-- Go struct `Graph` from main.go: adjacency lists indexed by node plus a
per-node color array (the field name keeps the spelling of the source). -/
structure Graph where
  AdjecencyList : List (List Nat)
  Colors : List Nat
deriving DecidableEq

/-- Go method `(g *Graph) NodeCount()`: the length of the adjacency list. -/
def Graph.NodeCount (g : Graph) : Nat :=
  g.AdjecencyList.length

/-- Go type alias `Chromosome = []int`: one candidate coloring. -/
abbrev Chromosome := List Nat

/-- Go type alias `Population = []Chromosome`. -/
abbrev Population := List Chromosome

/-- Go struct `GraphColoringSolver`: the graph and the target color count. -/
structure GraphColoringSolver where
  graph : Graph
  numColors : Nat
deriving DecidableEq

/-- Go struct `GraphColoringSolution`: final coloring plus its score. -/
structure GraphColoringSolution where
  Coloring : Chromosome
  Score : Nat
deriving DecidableEq

/-- Go method `CalculateFitness` (main.go lines 250-260): iterate every node
`i`, iterate its stored adjacency entries `j`, count the entries with
`chromosome[i] == chromosome[j]`, and return the counter divided by 2 with
integer division. -/
def GraphColoringSolver.CalculateFitness (solver : GraphColoringSolver)
    (chromosome : Chromosome) : Nat :=
  ((List.range solver.graph.NodeCount).foldl
    (fun score i =>
      (solver.graph.AdjecencyList.getD i []).foldl
        (fun s j => if chromosome.getD i 0 = chromosome.getD j 0 then s + 1 else s)
        score)
    0) / 2

/-- The count named by the specification: the number of stored adjacency
entries `(i, j)` (an occurrence of `j` in the adjacency list of `i`) whose two
endpoints carry the same color under `chromosome`. -/
def SpecConflictCount (g : Graph) (chromosome : Chromosome) : Nat :=
  ((List.range g.NodeCount).map
    (fun i =>
      (g.AdjecencyList.getD i []).countP
        (fun j => decide (chromosome.getD i 0 = chromosome.getD j 0)))).sum

/-- A proper coloring with respect to the stored (one-directional) adjacency:
no stored adjacency entry joins two nodes of the same color. -/
def ProperColoring (g : Graph) (chromosome : Chromosome) : Prop :=
  ∀ i ∈ List.range g.NodeCount, ∀ j ∈ g.AdjecencyList.getD i [],
    chromosome.getD i 0 ≠ chromosome.getD j 0

instance (g : Graph) (chromosome : Chromosome) :
    Decidable (ProperColoring g chromosome) := by
  unfold ProperColoring
  infer_instance

lemma foldl_if_count (Q : Nat → Prop) [DecidablePred Q] :
    ∀ (l : List Nat) (s : Nat),
      l.foldl (fun s j => if Q j then s + 1 else s) s
        = s + l.countP (fun j => decide (Q j))
  | [], s => by simp
  | a :: l, s => by
      by_cases h : Q a
      · simp [List.countP_cons, h, foldl_if_count Q l]
        omega
      · simp [List.countP_cons, h, foldl_if_count Q l]

lemma fitness_fold_eq (adj : List (List Nat)) (chr : List Nat) :
    ∀ (l : List Nat) (s : Nat),
      l.foldl
        (fun score i =>
          (adj.getD i []).foldl
            (fun s j => if chr.getD i 0 = chr.getD j 0 then s + 1 else s)
            score)
        s
        = s + (l.map (fun i =>
            (adj.getD i []).countP
              (fun j => decide (chr.getD i 0 = chr.getD j 0)))).sum
  | [], s => by simp
  | a :: l, s => by
      rw [List.foldl_cons, fitness_fold_eq adj chr l,
        foldl_if_count (fun j => chr.getD a 0 = chr.getD j 0)]
      simp [Nat.add_assoc]

lemma calculateFitness_eq_specCount (solver : GraphColoringSolver)
    (chromosome : Chromosome) :
    solver.CalculateFitness chromosome
      = SpecConflictCount solver.graph chromosome / 2 := by
  unfold GraphColoringSolver.CalculateFitness SpecConflictCount
  rw [fitness_fold_eq, Nat.zero_add]

lemma getD_eq_nil_of_all_nil {adj : List (List Nat)}
    (h : ∀ l ∈ adj, l = []) (i : Nat) : adj.getD i [] = [] := by
  rcases Nat.lt_or_ge i adj.length with h' | h'
  · have hm : adj.getD i [] ∈ adj := by
      rw [List.getD_eq_getElem adj [] h']
      exact List.getElem_mem h'
    exact h _ hm
  · exact List.getD_eq_default adj [] h'

lemma specConflictCount_empty (g : Graph) (chromosome : Chromosome)
    (h : ∀ l ∈ g.AdjecencyList, l = []) :
    SpecConflictCount g chromosome = 0 := by
  unfold SpecConflictCount
  apply List.sum_eq_zero
  intro x hx
  rcases List.mem_map.mp hx with ⟨i, _, rfl⟩
  rw [getD_eq_nil_of_all_nil h i]
  rfl

lemma properColoring_of_specCount_zero (g : Graph) (chromosome : Chromosome)
    (h : SpecConflictCount g chromosome = 0) :
    ProperColoring g chromosome := by
  intro i hi j hj
  unfold SpecConflictCount at h
  have hz := (List.sum_eq_zero_iff).mp h
  have hcount :
      (g.AdjecencyList.getD i []).countP
        (fun j => decide (chromosome.getD i 0 = chromosome.getD j 0)) = 0 := by
    apply hz
    exact List.mem_map.mpr ⟨i, hi, rfl⟩
  have := (List.countP_eq_zero).mp hcount j hj
  simpa using this

/-- Claim C1: for every graph and chromosome, `CalculateFitness` returns the
number of stored adjacency entries whose endpoints share a color, divided by 2
with integer division; on a graph whose adjacency lists are all empty it
returns 0. -/
theorem c1_fitness_is_halved_conflict_count :
    ∀ (solver : GraphColoringSolver) (chromosome : Chromosome),
      solver.CalculateFitness chromosome
          = SpecConflictCount solver.graph chromosome / 2 ∧
      ((∀ l ∈ solver.graph.AdjecencyList, l = []) →
        solver.CalculateFitness chromosome = 0) := by
  intro solver chromosome
  refine ⟨calculateFitness_eq_specCount solver chromosome, ?_⟩
  intro h
  rw [calculateFitness_eq_specCount solver chromosome,
    specConflictCount_empty solver.graph chromosome h]

theorem c1_witness :
    GraphColoringSolver.CalculateFitness ⟨⟨[[], []], [0, 0]⟩, 1⟩ [0, 1]
        = SpecConflictCount ⟨[[], []], [0, 0]⟩ [0, 1] / 2 ∧
    GraphColoringSolver.CalculateFitness ⟨⟨[[], []], [0, 0]⟩, 1⟩ [0, 1] = 0 :=
  ⟨(c1_fitness_is_halved_conflict_count ⟨⟨[[], []], [0, 0]⟩, 1⟩ [0, 1]).1,
    (c1_fitness_is_halved_conflict_count ⟨⟨[[], []], [0, 0]⟩, 1⟩ [0, 1]).2
      (by decide)⟩

/-- Claim C4 counterexample: on the graph with nodes 0 and 1 and the single
stored adjacency entry (0, 1), the all-zero chromosome has fitness 0 (the one
conflicting entry is halved away by the integer division), yet the stored pair
(0, 1) joins two nodes of the same color, so the coloring is not proper. -/
theorem c4_counterexample :
    GraphColoringSolver.CalculateFitness ⟨⟨[[1], []], [0, 0]⟩, 2⟩ [0, 0] = 0 ∧
    ¬ ProperColoring ⟨[[1], []], [0, 0]⟩ [0, 0] := by
  decide

/-- Claim C4 (amended): if `CalculateFitness` returns 0 then at most one
stored adjacency entry joins two nodes of the same color; when the number of
conflicting stored entries is even (as it is when every edge is stored in both
directions), fitness 0 does imply a proper coloring. -/
theorem c4_fitness_zero_at_most_one_conflict :
    ∀ (solver : GraphColoringSolver) (chromosome : Chromosome),
      solver.CalculateFitness chromosome = 0 →
      SpecConflictCount solver.graph chromosome ≤ 1 ∧
      (SpecConflictCount solver.graph chromosome % 2 = 0 →
        ProperColoring solver.graph chromosome) := by
  intro solver chromosome h
  rw [calculateFitness_eq_specCount solver chromosome] at h
  have hlt : SpecConflictCount solver.graph chromosome < 2 :=
    (Nat.div_eq_zero_iff (by norm_num)).mp h
  constructor
  · omega
  · intro heven
    apply properColoring_of_specCount_zero
    omega

theorem c4_witness :
    SpecConflictCount ⟨[[1], []], [0, 0]⟩ [0, 1] ≤ 1 ∧
    ProperColoring ⟨[[1], []], [0, 0]⟩ [0, 1] := by
  have h := c4_fitness_zero_at_most_one_conflict ⟨⟨[[1], []], [0, 0]⟩, 2⟩
    [0, 1] (by decide)
  exact ⟨h.1, h.2 (by decide)⟩

/-- The loop of Go method `Crossover` (main.go lines 222-233), with fuel.
State: remaining fuel, `currentIndex`, the index of the next random draw, and
the offspring built so far (`res`).  Each pass copies the slice
`[currentIndex, nextIndex)` of a uniformly drawn parent, where `nextIndex` is
`currentIndex + partLength` capped at `chromosomeLength`.  When the fuel runs
out with the loop guard still true the embedding answers `none`; lemmas below
show this happens exactly when the Go loop never terminates. -/
def crossoverLoop (parents : List Chromosome) (choices : Nat → Nat)
    (chromosomeLength partLength : Nat) :
    Nat → Nat → Nat → Chromosome → Option Chromosome
  | 0, currentIndex, _, res =>
      if currentIndex < chromosomeLength then none else some res
  | fuel + 1, currentIndex, draw, res =>
      if currentIndex < chromosomeLength then
        let nextIndex := min (currentIndex + partLength) chromosomeLength
        let block := ((parents.getD (choices draw) []).drop currentIndex).take
          (nextIndex - currentIndex)
        crossoverLoop parents choices chromosomeLength partLength fuel nextIndex
          (draw + 1) (res ++ block)
      else some res

/-- Go method `Crossover` (main.go lines 216-236): block-wise random-source
crossover.  `chromosomeLength` is the length of `parents[0]`, `partLength` is
the integer division `chromosomeLength / partsCount`, and `choices` models the
successive results of `rand.Intn(len(parents))`. -/
def GraphColoringSolver.Crossover (solver : GraphColoringSolver) (fuel : Nat)
    (parents : List Chromosome) (choices : Nat → Nat) : Option Chromosome :=
  let chromosomeLength := (parents.getD 0 []).length
  let partsCount := parents.length
  let partLength := chromosomeLength / partsCount
  crossoverLoop parents choices chromosomeLength partLength fuel 0 0 []

/-- Modelled from the claim wording of C2: the genome split into contiguous
blocks of size the CEILING of L / P (last block possibly shorter), each block
copied verbatim from the parent drawn for that block. -/
def CrossoverCeilSpecModel (parents : List Chromosome)
    (choices : Nat → Nat) : Chromosome :=
  let chromosomeLength := (parents.getD 0 []).length
  let blockLength := (chromosomeLength + parents.length - 1) / parents.length
  ((List.range ((chromosomeLength + blockLength - 1) / blockLength)).map
    (fun k =>
      ((parents.getD (choices k) []).drop (k * blockLength)).take blockLength)).flatten

/-- The block decomposition the code implements: contiguous blocks of size the
FLOOR of L / P (last block possibly shorter), each block copied verbatim from
the parent drawn for that block. -/
def CrossoverBlocksModel (parents : List Chromosome)
    (choices : Nat → Nat) : Chromosome :=
  let chromosomeLength := (parents.getD 0 []).length
  let blockLength := chromosomeLength / parents.length
  ((List.range ((chromosomeLength + blockLength - 1) / blockLength)).map
    (fun k =>
      ((parents.getD (choices k) []).drop (k * blockLength)).take blockLength)).flatten

lemma crossoverLoop_none_of_partLength_zero (parents : List Chromosome)
    (choices : Nat → Nat) (L : Nat) :
    ∀ (fuel currentIndex draw : Nat) (res : Chromosome),
      currentIndex < L →
      crossoverLoop parents choices L 0 fuel currentIndex draw res = none
  | 0, c, d, r, h => by simp [crossoverLoop, h]
  | fuel + 1, c, d, r, h => by
      have hmin : min (c + 0) L = c := by omega
      simp only [crossoverLoop, if_pos h, hmin]
      exact crossoverLoop_none_of_partLength_zero parents choices L fuel c
        (d + 1) _ h

lemma getD_mem_of_lt {parents : List Chromosome} {k : Nat}
    (h : k < parents.length) : parents.getD k [] ∈ parents := by
  rw [List.getD_eq_getElem parents [] h]
  exact List.getElem_mem h

lemma mem_of_mem_getD {parents : List Chromosome} {k x : Nat}
    (hx : x ∈ parents.getD k []) : ∃ p ∈ parents, x ∈ p := by
  rcases Nat.lt_or_ge k parents.length with h | h
  · exact ⟨parents.getD k [], getD_mem_of_lt h, hx⟩
  · rw [List.getD_eq_default parents [] h] at hx
    cases hx

lemma crossoverLoop_some_length (parents : List Chromosome)
    (choices : Nat → Nat) (L B : Nat)
    (hlen : ∀ p ∈ parents, p.length = L)
    (hch : ∀ k, choices k < parents.length) :
    ∀ (fuel currentIndex draw : Nat) (res out : Chromosome),
      crossoverLoop parents choices L B fuel currentIndex draw res = some out →
      out.length = res.length + (L - currentIndex)
  | 0, c, d, res, out, h => by
      by_cases hc : c < L
      · simp [crossoverLoop, hc] at h
      · simp [crossoverLoop, hc] at h
        subst h
        omega
  | fuel + 1, c, d, res, out, h => by
      by_cases hc : c < L
      · simp only [crossoverLoop, if_pos hc] at h
        have hplen : (parents.getD (choices d) []).length = L :=
          hlen _ (getD_mem_of_lt (hch d))
        have hrec := crossoverLoop_some_length parents choices L B
          hlen hch fuel (min (c + B) L) (d + 1) _ out h
        rw [List.length_append, List.length_take, List.length_drop, hplen]
          at hrec
        omega
      · simp [crossoverLoop, hc] at h
        subst h
        omega

lemma crossoverLoop_isSome (parents : List Chromosome) (choices : Nat → Nat)
    (L B : Nat) (hB : 1 ≤ B) :
    ∀ (fuel currentIndex draw : Nat) (res : Chromosome),
      L - currentIndex ≤ fuel →
      (crossoverLoop parents choices L B fuel currentIndex draw res).isSome
  | 0, c, d, res, hf => by
      have hc : ¬ c < L := by omega
      simp [crossoverLoop, hc]
  | fuel + 1, c, d, res, hf => by
      by_cases hc : c < L
      · simp only [crossoverLoop, if_pos hc]
        exact crossoverLoop_isSome parents choices L B hB fuel
          (min (c + B) L) (d + 1) _ (by omega)
      · simp [crossoverLoop, hc]

lemma crossoverLoop_some_mem (parents : List Chromosome)
    (choices : Nat → Nat) (L B : Nat) :
    ∀ (fuel currentIndex draw : Nat) (res out : Chromosome),
      crossoverLoop parents choices L B fuel currentIndex draw res = some out →
      ∀ x ∈ out, x ∈ res ∨ ∃ p ∈ parents, x ∈ p
  | 0, c, d, res, out, h => by
      by_cases hc : c < L
      · simp [crossoverLoop, hc] at h
      · simp [crossoverLoop, hc] at h
        subst h
        exact fun x hx => Or.inl hx
  | fuel + 1, c, d, res, out, h => by
      by_cases hc : c < L
      · simp only [crossoverLoop, if_pos hc] at h
        intro x hx
        rcases crossoverLoop_some_mem parents choices L B fuel
            (min (c + B) L) (d + 1) _ out h x hx with hmem | hp
        · rcases List.mem_append.mp hmem with hres | hblock
          · exact Or.inl hres
          · exact Or.inr (mem_of_mem_getD
              (List.mem_of_mem_drop (List.mem_of_mem_take hblock)))
        · exact Or.inr hp
      · simp [crossoverLoop, hc] at h
        subst h
        exact fun x hx => Or.inl hx

lemma crossoverLoop_eq_blocks (parents : List Chromosome)
    (choices : Nat → Nat) (L B : Nat) (hB : 1 ≤ B)
    (hlen : ∀ p ∈ parents, p.length = L)
    (hch : ∀ k, choices k < parents.length) :
    ∀ (fuel k : Nat) (res : Chromosome), L - k * B ≤ fuel →
      crossoverLoop parents choices L B fuel (min (k * B) L) k res
        = some (res ++ ((List.range' k ((L + B - 1) / B - k)).map
            (fun m =>
              ((parents.getD (choices m) []).drop (m * B)).take B)).flatten)
  | fuel, k, res, hf => by
      have hmul : (k + 1) * B = k * B + B := Nat.succ_mul k B
      have hdiv : k + 1 ≤ (L + B - 1) / B ↔ (k + 1) * B ≤ L + B - 1 :=
        Nat.le_div_iff_mul_le (by omega)
      rw [hmul] at hdiv
      rcases Nat.lt_or_ge (k * B) L with hc | hc
      · cases fuel with
        | zero => omega
        | succ fuel =>
          have hm : min (k * B) L = k * B := by omega
          rw [hm]
          simp only [crossoverLoop, if_pos hc]
          have hp : (parents.getD (choices k) []).length = L :=
            hlen _ (getD_mem_of_lt (hch k))
          have hblock :
              ((parents.getD (choices k) []).drop (k * B)).take
                  (min (k * B + B) L - k * B)
                = ((parents.getD (choices k) []).drop (k * B)).take B := by
            rw [List.take_eq_take]
            rw [List.length_drop, hp]
            omega
          have hnext : min (k * B + B) L = min ((k + 1) * B) L := by
            rw [hmul]
          have hrec := crossoverLoop_eq_blocks parents choices L B hB hlen hch
            fuel (k + 1) (res ++ ((parents.getD (choices k) []).drop
              (k * B)).take B) (by omega)
          rw [hblock, hnext, hrec]
          have hk1 : k + 1 ≤ (L + B - 1) / B := by omega
          have hsub : (L + B - 1) / B - k = ((L + B - 1) / B - (k + 1)) + 1 := by
            omega
          rw [hsub, List.range'_succ, List.map_cons, List.flatten_cons,
            List.append_assoc]
      · have hm : min (k * B) L = L := by omega
        have hnb : (L + B - 1) / B - k = 0 := by omega
        rw [hm, hnb]
        cases fuel with
        | zero => simp [crossoverLoop]
        | succ fuel => simp [crossoverLoop]

lemma crossover_eq_blocksModel (solver : GraphColoringSolver)
    (parents : List Chromosome) (choices : Nat → Nat) (L : Nat)
    (hne : parents ≠ [])
    (hlen : ∀ p ∈ parents, p.length = L)
    (hch : ∀ k, choices k < parents.length)
    (hterm : L = 0 ∨ parents.length ≤ L) :
    solver.Crossover (L + 1) parents choices
      = some (CrossoverBlocksModel parents choices) := by
  have hP : 0 < parents.length := List.length_pos.mpr hne
  have h0 : (parents.getD 0 []).length = L := hlen _ (getD_mem_of_lt hP)
  simp only [GraphColoringSolver.Crossover, CrossoverBlocksModel, h0]
  rcases hterm with hL | hPL
  · subst hL
    simp [crossoverLoop]
  · have hB : 1 ≤ L / parents.length := (Nat.one_le_div_iff hP).mpr hPL
    have h := crossoverLoop_eq_blocks parents choices L (L / parents.length)
      hB hlen hch (L + 1) 0 [] (by omega)
    rw [Nat.zero_mul, Nat.min_eq_left (Nat.zero_le L)] at h
    rw [h, Nat.sub_zero, ← List.range_eq_range']
    simp

/-- Claim C2 counterexample: with parents `[0,0,0]` and `[1,1,1]` (so L = 3,
P = 2) and per-block draws 0, 1, 1, ..., the code partitions the genome into
floor(3/2) = 1-sized blocks and yields `[0,1,1]`, while the claimed
ceil(3/2) = 2-sized partition would yield `[0,0,1]`; indeed `[0,1,1]` cannot
be assembled from 2-sized blocks of these parents at all. -/
theorem c2_counterexample :
    GraphColoringSolver.Crossover ⟨⟨[], []⟩, 0⟩ 4 [[0, 0, 0], [1, 1, 1]]
        (fun k => if k = 0 then 0 else 1) = some [0, 1, 1] ∧
    CrossoverCeilSpecModel [[0, 0, 0], [1, 1, 1]]
        (fun k => if k = 0 then 0 else 1) = [0, 0, 1] ∧
    ([0, 1, 1] : Chromosome) ≠ [0, 0, 1] :=
  ⟨rfl, rfl, by decide⟩

/-- Claim C2 (amended): for parents of equal length L, Crossover partitions
the index range into contiguous blocks of size FLOOR(L/P) in order (only the
last block may be shorter), draws one parent index per block, and copies that
block of the drawn parent verbatim into the offspring - provided L = 0 or
P is at most L; when 1 <= L < P the stride floor(L/P) is 0 and the loop never
terminates. -/
theorem c2_crossover_floor_blocks :
    ∀ (solver : GraphColoringSolver) (parents : List Chromosome)
      (choices : Nat → Nat) (L : Nat),
      parents ≠ [] →
      (∀ p ∈ parents, p.length = L) →
      (∀ k, choices k < parents.length) →
      (L = 0 ∨ parents.length ≤ L) →
      solver.Crossover (L + 1) parents choices
        = some (CrossoverBlocksModel parents choices) :=
  crossover_eq_blocksModel

theorem c2_witness :
    GraphColoringSolver.Crossover ⟨⟨[], []⟩, 0⟩ 6 [[0, 0, 0, 0, 0], [1, 1, 1, 1, 1]]
        (fun k => 0)
      = some (CrossoverBlocksModel [[0, 0, 0, 0, 0], [1, 1, 1, 1, 1]] (fun k => 0)) :=
  c2_crossover_floor_blocks ⟨⟨[], []⟩, 0⟩ [[0, 0, 0, 0, 0], [1, 1, 1, 1, 1]]
    (fun k => 0) 5 (by decide) (by decide)
    (fun k => by norm_num) (by norm_num)

/-- Claim C3 counterexample: two parents of equal length 1 (so P = 2 > L = 1)
make the stride floor(L/P) = 0, the loop index never advances, and Crossover
never terminates: no amount of fuel produces an offspring. -/
theorem c3_counterexample :
    ¬ ∃ (fuel : Nat) (out : Chromosome),
        GraphColoringSolver.Crossover ⟨⟨[], []⟩, 0⟩ fuel [[0], [1]]
            (fun k => 0) = some out ∧
          out.length = 1 := by
  rintro ⟨fuel, out, h, -⟩
  have hnone := crossoverLoop_none_of_partLength_zero [[0], [1]] (fun k => 0)
    1 fuel 0 0 [] (by norm_num)
  simp only [GraphColoringSolver.Crossover] at h
  norm_num at h
  rw [hnone] at h
  cases h

/-- Claim C3 (amended): for P >= 1 parents of equal length L, Crossover
terminates with an offspring of length exactly L provided L = 0 or P <= L;
when 1 <= L < P the loop never terminates (see the counterexample). -/
theorem c3_crossover_length :
    ∀ (solver : GraphColoringSolver) (parents : List Chromosome)
      (choices : Nat → Nat) (L : Nat),
      parents ≠ [] →
      (∀ p ∈ parents, p.length = L) →
      (∀ k, choices k < parents.length) →
      (L = 0 ∨ parents.length ≤ L) →
      ∃ out, solver.Crossover (L + 1) parents choices = some out ∧
        out.length = L := by
  intro solver parents choices L hne hlen hch hterm
  have hP : 0 < parents.length := List.length_pos.mpr hne
  have h0 : (parents.getD 0 []).length = L := hlen _ (getD_mem_of_lt hP)
  have hsome :
      (solver.Crossover (L + 1) parents choices).isSome := by
    simp only [GraphColoringSolver.Crossover, h0]
    rcases hterm with hL | hPL
    · subst hL
      simp [crossoverLoop]
    · exact crossoverLoop_isSome parents choices L (L / parents.length)
        ((Nat.one_le_div_iff hP).mpr hPL) (L + 1) 0 0 [] (by omega)
  rcases Option.isSome_iff_exists.mp hsome with ⟨out, hout⟩
  refine ⟨out, hout, ?_⟩
  have hout' := hout
  simp only [GraphColoringSolver.Crossover] at hout'
  rw [h0] at hout'
  have := crossoverLoop_some_length parents choices L (L / parents.length)
    hlen hch (L + 1) 0 0 [] out hout'
  simpa using this

theorem c3_witness :
    ∃ out,
      GraphColoringSolver.Crossover ⟨⟨[], []⟩, 0⟩ 3 [[4, 5], [6, 7]]
          (fun k => 1) = some out ∧
        out.length = 2 :=
  c3_crossover_length ⟨⟨[], []⟩, 0⟩ [[4, 5], [6, 7]] (fun k => 1) 2
    (by decide) (by decide) (fun k => by norm_num) (by norm_num)

/-- The retry loop inside Go method `SelectParents` (main.go lines 200-211).
`stream draw` models the result of the draw-th call to `rand.Intn(popSize)`;
`attempts` counts the remaining iterations of `for j := 0; j < 10; j++`.
Returns the selected index, the next draw counter, and the updated used set.
A drawn index not yet used is recorded and the loop breaks; when the last
attempt also collides the duplicate index is accepted without being recorded.
With 0 attempts the loop body never runs and the index keeps its Go zero
value (unreachable from the 10 attempts the program starts with). -/
def selectOne (stream : Nat → Nat) : Nat → List Nat → Nat → Nat × Nat × List Nat
  | draw, used, 0 => (0, draw, used)
  | draw, used, attempts + 1 =>
      let parentIndex := stream draw
      if parentIndex ∈ used then
        if attempts = 0 then (parentIndex, draw + 1, used)
        else selectOne stream (draw + 1) used attempts
      else (parentIndex, draw + 1, parentIndex :: used)

/-- The outer loop of Go method `SelectParents`: `count` parent slots remain
(`parentsCount = 2` in the source), each filled by the retry loop. -/
def selectParentsLoop (population : Population) (stream : Nat → Nat) :
    Nat → Nat → List Nat → List Chromosome → List Chromosome
  | 0, _, _, parents => parents
  | count + 1, draw, used, parents =>
      let r := selectOne stream draw used 10
      selectParentsLoop population stream count r.2.1 r.2.2
        (parents ++ [population.getD r.1 []])

/-- Go method `SelectParents` (main.go lines 193-214): returns 2 chromosomes
drawn by uniform-random index with up to 10 retries per slot to avoid an
index already chosen in this call. -/
def GraphColoringSolver.SelectParents (solver : GraphColoringSolver)
    (population : Population) (stream : Nat → Nat) : List Chromosome :=
  selectParentsLoop population stream 2 0 [] []

lemma selectOne_spec (stream : Nat → Nat) :
    ∀ (attempts draw : Nat) (used : List Nat), 1 ≤ attempts →
      ∃ j < attempts,
        (selectOne stream draw used attempts).1 = stream (draw + j) ∧
        (∀ k < j, stream (draw + k) ∈ used) ∧
        (stream (draw + j) ∉ used ∨ j = attempts - 1)
  | 0, draw, used, h => by omega
  | 1, draw, used, _ => by
      by_cases hmem : stream draw ∈ used
      · refine ⟨0, by omega, ?_, ?_, Or.inr rfl⟩
        · simp [selectOne, hmem]
        · intro k hk
          omega
      · refine ⟨0, by omega, ?_, ?_, Or.inl (by simpa using hmem)⟩
        · simp [selectOne, hmem]
        · intro k hk
          omega
  | a + 2, draw, used, _ => by
      by_cases hmem : stream draw ∈ used
      · rcases selectOne_spec stream (a + 1) (draw + 1) used (by omega)
          with ⟨j', hj', hres, hearlier, hdisj⟩
        refine ⟨j' + 1, by omega, ?_, ?_, ?_⟩
        · have : selectOne stream draw used (a + 2)
              = selectOne stream (draw + 1) used (a + 1) := by
            simp [selectOne, hmem]
          rw [this, hres]
          congr 1
          omega
        · intro k hk
          cases k with
          | zero => simpa using hmem
          | succ k' =>
              have : draw + (k' + 1) = draw + 1 + k' := by omega
              rw [this]
              exact hearlier k' (by omega)
        · rcases hdisj with hout | hlast
          · left
            have : draw + (j' + 1) = draw + 1 + j' := by omega
            rw [this]
            exact hout
          · right
            omega
      · refine ⟨0, by omega, ?_, ?_, Or.inl (by simpa using hmem)⟩
        · simp [selectOne, hmem]
        · intro k hk
          omega

lemma selectOne_nil (stream : Nat → Nat) (draw : Nat) :
    selectOne stream draw [] 10 = (stream draw, draw + 1, [stream draw]) := by
  simp [selectOne]

lemma selectParents_eq (solver : GraphColoringSolver)
    (population : Population) (stream : Nat → Nat) :
    solver.SelectParents population stream
      = [population.getD (stream 0) [],
         population.getD (selectOne stream 1 [stream 0] 10).1 []] := by
  simp [GraphColoringSolver.SelectParents, selectParentsLoop, selectOne_nil]

/-- Claim C5: on a non-empty population, SelectParents terminates and returns
exactly 2 chromosomes drawn by uniform-random index.  The first slot takes the
first draw.  The second slot takes the draw of some attempt j between 1 and
10 such that every earlier attempt collided with the first index, and either
the accepted draw avoids the first index or it was the 10th and last attempt
(the duplicate is then accepted).  On a population of size 1 both returned
chromosomes are the single element. -/
theorem c5_select_parents :
    ∀ (solver : GraphColoringSolver) (population : Population)
      (stream : Nat → Nat),
      population ≠ [] →
      (∀ k, stream k < population.length) →
      (solver.SelectParents population stream).length = 2 ∧
      (∀ c ∈ solver.SelectParents population stream, c ∈ population) ∧
      (solver.SelectParents population stream).getD 0 []
          = population.getD (stream 0) [] ∧
      (∃ j, 1 ≤ j ∧ j ≤ 10 ∧
        (solver.SelectParents population stream).getD 1 []
            = population.getD (stream j) [] ∧
        (∀ k, 1 ≤ k → k < j → stream k = stream 0) ∧
        (stream j ≠ stream 0 ∨ j = 10)) ∧
      (population.length = 1 →
        solver.SelectParents population stream
          = [population.getD 0 [], population.getD 0 []]) := by
  intro solver population stream hne hstream
  rcases selectOne_spec stream 10 1 [stream 0] (by omega)
    with ⟨j', hj', hres, hearlier, hdisj⟩
  rw [selectParents_eq, hres]
  refine ⟨rfl, ?_, by simp, ?_, ?_⟩
  · intro c hc
    rcases List.mem_cons.mp hc with rfl | hc
    · exact getD_mem_of_lt (hstream 0)
    · rcases List.mem_cons.mp hc with rfl | hc
      · exact getD_mem_of_lt (hstream (1 + j'))
      · cases hc
  · refine ⟨1 + j', by omega, by omega, by simp, ?_, ?_⟩
    · intro k hk1 hkj
      rcases Nat.exists_eq_add_of_le hk1 with ⟨k', rfl⟩
      have := hearlier k' (by omega)
      simpa using this
    · rcases hdisj with hout | hlast
      · left
        simpa using hout
      · right
        omega
  · intro hone
    have hz : ∀ k, stream k = 0 := fun k => by
      have := hstream k
      omega
    rw [hz 0, hz (1 + j')]

theorem c5_witness :
    (GraphColoringSolver.SelectParents ⟨⟨[[]], [0]⟩, 1⟩ [[3]]
        (fun k => 0)).length = 2 ∧
    GraphColoringSolver.SelectParents ⟨⟨[[]], [0]⟩, 1⟩ [[3]] (fun k => 0)
        = [[3], [3]] := by
  have h := c5_select_parents ⟨⟨[[]], [0]⟩, 1⟩ [[3]] (fun k => 0)
    (by decide) (fun k => by norm_num)
  refine ⟨h.1, ?_⟩
  have h5 := h.2.2.2.2 (by decide)
  simpa using h5

/-- The loop of Go method `Mutate` (main.go lines 241-245).  `coin i` models
the outcome of `rand.Float32() < mutationProb` at position `i`; `colors d`
models the result of the d-th call to `rand.Intn(solver.NumColors)` (the
color draw happens only when the coin fires, so its counter advances only
then).  The numeric value of `mutationProb = 1/len(child)` matters only for
the distribution of the coin, which the stream abstracts. -/
def mutateLoop (coin : Nat → Bool) (colors : Nat → Nat) :
    List Nat → Nat → Nat → List Nat
  | [], _, _ => []
  | g :: rest, i, draws =>
      if coin i then colors draws :: mutateLoop coin colors rest (i + 1) (draws + 1)
      else g :: mutateLoop coin colors rest (i + 1) draws

/-- Go method `Mutate` (main.go lines 238-248): per-gene coin flip; a firing
coin replaces the gene by a fresh uniform color draw. -/
def GraphColoringSolver.Mutate (solver : GraphColoringSolver)
    (coin : Nat → Bool) (colors : Nat → Nat) (child : Chromosome) : Chromosome :=
  mutateLoop coin colors child 0 0

/-- Go method `RandomPopulation` (main.go lines 164-177): `size` chromosomes
of `nodeCount` genes; `gene i j` models the draw `rand.Intn(solver.NumColors)`
for position `j` of chromosome `i`. -/
def GraphColoringSolver.RandomPopulation (solver : GraphColoringSolver)
    (size : Nat) (gene : Nat → Nat → Nat) : Population :=
  (List.range size).map (fun i =>
    (List.range solver.graph.NodeCount).map (fun j => gene i j))

lemma mutateLoop_length (coin : Nat → Bool) (colors : Nat → Nat) :
    ∀ (l : List Nat) (i d : Nat),
      (mutateLoop coin colors l i d).length = l.length
  | [], _, _ => rfl
  | g :: rest, i, d => by
      by_cases h : coin i
      · simp [mutateLoop, h, mutateLoop_length coin colors rest]
      · simp [mutateLoop, h, mutateLoop_length coin colors rest]

lemma mutateLoop_mem (coin : Nat → Bool) (colors : Nat → Nat) :
    ∀ (l : List Nat) (i d x : Nat),
      x ∈ mutateLoop coin colors l i d → x ∈ l ∨ ∃ k, x = colors k
  | [], i, d, x, hx => by cases hx
  | g :: rest, i, d, x, hx => by
      by_cases h : coin i
      · rw [mutateLoop, if_pos h] at hx
        rcases List.mem_cons.mp hx with rfl | hx
        · exact Or.inr ⟨d, rfl⟩
        · rcases mutateLoop_mem coin colors rest (i + 1) (d + 1) x hx with h' | h'
          · exact Or.inl (List.mem_cons_of_mem g h')
          · exact Or.inr h'
      · rw [mutateLoop, if_neg h] at hx
        rcases List.mem_cons.mp hx with rfl | hx
        · exact Or.inl (List.mem_cons_self x rest)
        · rcases mutateLoop_mem coin colors rest (i + 1) d x hx with h' | h'
          · exact Or.inl (List.mem_cons_of_mem g h')
          · exact Or.inr h'

/-- Claim C9: chromosomes produced by RandomPopulation have length nodeCount
with every gene a uniform draw below numColors; an offspring Crossover
produces (whenever it terminates) from full-length parents with in-range
genes again has length nodeCount and in-range genes; Mutate preserves the
length and, when the color draws are in range and the input genes are, the
gene range.  The in-range side conditions on the streams state exactly the
`rand.Intn` guarantee (they force `numColors >= 1`, without which the Go
calls would panic). -/
theorem c9_chromosome_invariants :
    (∀ (solver : GraphColoringSolver) (size : Nat) (gene : Nat → Nat → Nat),
      (∀ i j, gene i j < solver.numColors) →
      ∀ chr ∈ solver.RandomPopulation size gene,
        chr.length = solver.graph.NodeCount ∧
          ∀ x ∈ chr, x < solver.numColors) ∧
    (∀ (solver : GraphColoringSolver) (parents : List Chromosome)
        (choices : Nat → Nat) (fuel : Nat) (out : Chromosome),
      (∀ p ∈ parents, p.length = solver.graph.NodeCount) →
      (∀ k, choices k < parents.length) →
      (∀ p ∈ parents, ∀ x ∈ p, x < solver.numColors) →
      solver.Crossover fuel parents choices = some out →
      out.length = solver.graph.NodeCount ∧
        ∀ x ∈ out, x < solver.numColors) ∧
    (∀ (solver : GraphColoringSolver) (coin : Nat → Bool)
        (colors : Nat → Nat) (child : Chromosome),
      (∀ k, colors k < solver.numColors) →
      (∀ x ∈ child, x < solver.numColors) →
      (solver.Mutate coin colors child).length = child.length ∧
        ∀ x ∈ solver.Mutate coin colors child, x < solver.numColors) := by
  refine ⟨?_, ?_, ?_⟩
  · intro solver size gene hgene chr hchr
    rcases List.mem_map.mp hchr with ⟨i, _, rfl⟩
    constructor
    · simp
    · intro x hx
      rcases List.mem_map.mp hx with ⟨j, _, rfl⟩
      exact hgene i j
  · intro solver parents choices fuel out hlen hch hrange hcross
    rcases List.eq_nil_or_concat parents with rfl | hne
    · have := hch 0
      simp at this
    · have hP : 0 < parents.length := by
        rcases hne with ⟨l, a, rfl⟩
        simp
      have h0 : (parents.getD 0 []).length = solver.graph.NodeCount :=
        hlen _ (getD_mem_of_lt hP)
      simp only [GraphColoringSolver.Crossover] at hcross
      rw [h0] at hcross
      constructor
      · have := crossoverLoop_some_length parents choices
          solver.graph.NodeCount
          (solver.graph.NodeCount / parents.length) hlen hch fuel 0 0 [] out
          hcross
        simpa using this
      · intro x hx
        rcases crossoverLoop_some_mem parents choices
            solver.graph.NodeCount
            (solver.graph.NodeCount / parents.length) fuel 0 0 [] out hcross
            x hx with hmem | ⟨p, hp, hxp⟩
        · cases hmem
        · exact hrange p hp x hxp
  · intro solver coin colors child hcolors hchild
    refine ⟨mutateLoop_length coin colors child 0 0, ?_⟩
    intro x hx
    rcases mutateLoop_mem coin colors child 0 0 x hx with h' | ⟨k, rfl⟩
    · exact hchild x h'
    · exact hcolors k

theorem c9_witness :
    (GraphColoringSolver.Mutate ⟨⟨[[]], [0]⟩, 2⟩ (fun i => true)
        (fun k => 1) [0]).length = 1 ∧
    GraphColoringSolver.RandomPopulation ⟨⟨[[]], [0]⟩, 2⟩ 1 (fun i j => 1)
        = [[1]] := by
  constructor
  · exact (c9_chromosome_invariants.2.2 ⟨⟨[[]], [0]⟩, 2⟩ (fun i => true)
      (fun k => 1) [0] (fun k => by norm_num) (by decide)).1
  · rfl

/-- Bundle of random streams used by `Solve`: `initGene` feeds
RandomPopulation; `sel t c`, `cross t c`, `coin t c`, `mutColor t c` feed the
selection, crossover and mutation of child `c` in iteration `t`.  The program
draws all of these from one global generator; indexing the streams by call
site is an equivalent presentation of an arbitrary draw sequence, since every
claim either quantifies over all streams or exhibits concrete ones. -/
structure RandSource where
  initGene : Nat → Nat → Nat
  sel : Nat → Nat → Nat → Nat
  cross : Nat → Nat → Nat → Nat
  coin : Nat → Nat → Nat → Bool
  mutColor : Nat → Nat → Nat → Nat

/-- One offspring of the inner loop of `Solve` (main.go lines 274-283):
select 2 parents, cross them, mutate the child, score it.  The crossover fuel
L+1 is exact: by `crossoverLoop_isSome` it suffices whenever the crossover
loop terminates at all, and by `crossoverLoop_none_of_partLength_zero` no
fuel suffices otherwise, so `none` here corresponds to the Go program never
terminating. -/
def makeChild (solver : GraphColoringSolver) (sel cross : Nat → Nat)
    (coin : Nat → Bool) (mutColor : Nat → Nat) (population : Population) :
    Option (Chromosome × Nat) :=
  let parents := solver.SelectParents population sel
  match solver.Crossover ((parents.getD 0 []).length + 1) parents cross with
  | none => none
  | some child =>
      let mutatedChild := solver.Mutate coin mutColor child
      some (mutatedChild, solver.CalculateFitness mutatedChild)

/-- The `childIndex` loop of `Solve`: produce `count` scored offspring
starting at child index `childIndex`. -/
def childrenLoop (solver : GraphColoringSolver) (rnd : RandSource) (t : Nat)
    (population : Population) : Nat → Nat → Option (List (Chromosome × Nat))
  | 0, _ => some []
  | count + 1, childIndex =>
      match makeChild solver (rnd.sel t childIndex) (rnd.cross t childIndex)
          (rnd.coin t childIndex) (rnd.mutColor t childIndex) population with
      | none => none
      | some sc =>
          match childrenLoop solver rnd t population count (childIndex + 1) with
          | none => none
          | some rest => some (sc :: rest)

/-- The generation loop of Go method `Solve` (main.go lines 272-298).  `n` is
the number of remaining iterations and `t` the current iteration index.  The
2 * popSize offspring are sorted ascending by score (`sort.Slice` with a
strict less; insertion sort is one sort consistent with that comparator - the
tie order of the unstable `sort.Slice` is unspecified and no claim depends on
it), the first popSize of them overwrite the population (which always has
exactly popSize entries), and the loop exits early when the best score is 0.
The progress log every 100 iterations is a side effect with no bearing on the
result and is not modeled. -/
def solveLoop (solver : GraphColoringSolver) (popSize : Nat)
    (rnd : RandSource) : Nat → Nat → Population → Option Population
  | 0, _, population => some population
  | n + 1, t, population =>
      match childrenLoop solver rnd t population (2 * popSize) 0 with
      | none => none
      | some scoredPopulation =>
          let sorted :=
            List.insertionSort (fun a b => a.2 < b.2) scoredPopulation
          let newPop := (sorted.take popSize).map (fun sc => sc.1)
          if (sorted.headD ([], 0)).2 = 0 then some newPop
          else solveLoop solver popSize rnd n (t + 1) newPop

/-- Go method `Solve` (main.go lines 267-304): random initial population,
generation loop, and a final Solution built from `population[0]` together
with a fresh `CalculateFitness` call on it. -/
def GraphColoringSolver.Solve (solver : GraphColoringSolver)
    (numIterations popSize : Nat) (rnd : RandSource) :
    Option GraphColoringSolution :=
  match solveLoop solver popSize rnd numIterations 0
      (solver.RandomPopulation popSize rnd.initGene) with
  | none => none
  | some finalPop =>
      some ⟨finalPop.getD 0 [], solver.CalculateFitness (finalPop.getD 0 [])⟩

/-- All-zero random streams, used for concrete executions. -/
def constRand : RandSource :=
  ⟨fun i j => 0, fun t c k => 0, fun t c k => 0, fun t c k => false,
    fun t c k => 0⟩

lemma fitness_zero_of_no_edges (solver : GraphColoringSolver)
    (h : ∀ l ∈ solver.graph.AdjecencyList, l = []) (chr : Chromosome) :
    solver.CalculateFitness chr = 0 := by
  rw [calculateFitness_eq_specCount,
    specConflictCount_empty solver.graph chr h]

lemma selectOne_lt (stream : Nat → Nat) (draw : Nat) (used : List Nat)
    (bound : Nat) (h : ∀ k, stream k < bound) :
    (selectOne stream draw used 10).1 < bound := by
  rcases selectOne_spec stream 10 draw used (by omega)
    with ⟨j, hj, hres, -, -⟩
  rw [hres]
  exact h _

lemma makeChild_eq (solver : GraphColoringSolver) (sel cross : Nat → Nat)
    (coin : Nat → Bool) (mutColor : Nat → Nat) (population : Population) :
    makeChild solver sel cross coin mutColor population =
      match solver.Crossover
          (((solver.SelectParents population sel).getD 0 []).length + 1)
          (solver.SelectParents population sel) cross with
      | none => none
      | some child =>
          some (solver.Mutate coin mutColor child,
            solver.CalculateFitness (solver.Mutate coin mutColor child)) :=
  rfl

lemma makeChild_zero_edges (solver : GraphColoringSolver)
    (sel cross : Nat → Nat) (coin : Nat → Bool) (mutColor : Nat → Nat)
    (population : Population)
    (hadj : ∀ l ∈ solver.graph.AdjecencyList, l = [])
    (hsel : ∀ k, sel k < population.length)
    (hlenpop : ∀ chr ∈ population, chr.length = solver.graph.NodeCount)
    (hn : solver.graph.NodeCount ≠ 1) :
    ∃ chr, makeChild solver sel cross coin mutColor population
      = some (chr, 0) := by
  have hpar := selectParents_eq solver population sel
  have hfst : (solver.SelectParents population sel).getD 0 []
      = population.getD (sel 0) [] := by
    rw [hpar]
    rfl
  have hL : ((solver.SelectParents population sel).getD 0 []).length
      = solver.graph.NodeCount := by
    rw [hfst]
    exact hlenpop _ (getD_mem_of_lt (hsel 0))
  have hPlen : (solver.SelectParents population sel).length = 2 := by
    rw [hpar]
    rfl
  have hsome : (solver.Crossover
      (((solver.SelectParents population sel).getD 0 []).length + 1)
      (solver.SelectParents population sel) cross).isSome := by
    simp only [GraphColoringSolver.Crossover]
    rw [hL, hPlen]
    rcases Nat.eq_zero_or_pos solver.graph.NodeCount with h0 | hpos
    · rw [h0]
      simp [crossoverLoop]
    · have h2 : 2 ≤ solver.graph.NodeCount := by omega
      exact crossoverLoop_isSome (solver.SelectParents population sel) cross
        solver.graph.NodeCount (solver.graph.NodeCount / 2)
        ((Nat.one_le_div_iff (by norm_num)).mpr h2) _ 0 0 [] (by omega)
  obtain ⟨child, hchild⟩ := Option.isSome_iff_exists.mp hsome
  refine ⟨solver.Mutate coin mutColor child, ?_⟩
  rw [makeChild_eq, hchild]
  dsimp only
  rw [fitness_zero_of_no_edges solver hadj]

lemma childrenLoop_all_zero (solver : GraphColoringSolver) (rnd : RandSource)
    (t : Nat) (population : Population)
    (h : ∀ c, ∃ chr, makeChild solver (rnd.sel t c) (rnd.cross t c)
      (rnd.coin t c) (rnd.mutColor t c) population = some (chr, 0)) :
    ∀ (count childIndex : Nat),
      ∃ l, childrenLoop solver rnd t population count childIndex = some l ∧
        l.length = count ∧ ∀ sc ∈ l, sc.2 = 0
  | 0, c0 => ⟨[], rfl, rfl, by simp⟩
  | count + 1, c0 => by
      obtain ⟨chr, hchr⟩ := h c0
      obtain ⟨rest, hrest, hlen, hall⟩ :=
        childrenLoop_all_zero solver rnd t population h count (c0 + 1)
      refine ⟨(chr, 0) :: rest, ?_, by simp [hlen], ?_⟩
      · simp only [childrenLoop]
        rw [hchr, hrest]
      · intro sc hsc
        rcases List.mem_cons.mp hsc with rfl | h'
        · rfl
        · exact hall _ h'

lemma randomPopulation_length (solver : GraphColoringSolver) (size : Nat)
    (gene : Nat → Nat → Nat) :
    (solver.RandomPopulation size gene).length = size := by
  simp [GraphColoringSolver.RandomPopulation]

lemma randomPopulation_mem_length (solver : GraphColoringSolver) (size : Nat)
    (gene : Nat → Nat → Nat) :
    ∀ chr ∈ solver.RandomPopulation size gene,
      chr.length = solver.graph.NodeCount := by
  intro chr hchr
  rcases List.mem_map.mp hchr with ⟨i, -, rfl⟩
  simp

lemma solveLoop_early_exit (solver : GraphColoringSolver) (popSize : Nat)
    (rnd : RandSource) (t : Nat) (population : Population)
    (hpos : 1 ≤ popSize)
    (h : ∀ c, ∃ chr, makeChild solver (rnd.sel t c) (rnd.cross t c)
      (rnd.coin t c) (rnd.mutColor t c) population = some (chr, 0)) :
    ∃ newPop, ∀ n,
      solveLoop solver popSize rnd (n + 1) t population = some newPop := by
  obtain ⟨l, hl, hlen, hall⟩ :=
    childrenLoop_all_zero solver rnd t population h (2 * popSize) 0
  have hperm := List.perm_insertionSort (fun a b => a.2 < b.2) l
  have hne : List.insertionSort (fun a b => a.2 < b.2) l ≠ [] := by
    intro hnil
    have := hperm.length_eq
    rw [hnil, hlen] at this
    simp at this
    omega
  have hhead :
      ((List.insertionSort (fun a b => a.2 < b.2) l).headD ([], 0)).2 = 0 := by
    cases hs : List.insertionSort (fun a b => a.2 < b.2) l with
    | nil => exact absurd hs hne
    | cons x xs =>
        have hx : x ∈ l := hperm.mem_iff.mp (by
          rw [hs]
          exact List.mem_cons_self x xs)
        simpa using hall x hx
  refine ⟨((List.insertionSort (fun a b => a.2 < b.2) l).take popSize).map
    (fun sc => sc.1), fun n => ?_⟩
  simp only [solveLoop]
  rw [hl]
  dsimp only
  rw [if_pos hhead]

/-- Claim C6: any Solution Solve returns consists of the head of the final
population together with a Score that is CalculateFitness freshly recomputed
on that chromosome at return time. -/
theorem c6_solution_is_head_with_fresh_fitness :
    ∀ (solver : GraphColoringSolver) (numIterations popSize : Nat)
      (rnd : RandSource) (sol : GraphColoringSolution),
      solver.Solve numIterations popSize rnd = some sol →
      ∃ finalPop,
        solveLoop solver popSize rnd numIterations 0
            (solver.RandomPopulation popSize rnd.initGene) = some finalPop ∧
        sol.Coloring = finalPop.getD 0 [] ∧
        sol.Score = solver.CalculateFitness sol.Coloring := by
  intro solver ni ps rnd sol h
  unfold GraphColoringSolver.Solve at h
  rcases hcase : solveLoop solver ps rnd ni 0
      (solver.RandomPopulation ps rnd.initGene) with - | finalPop
  · rw [hcase] at h
    cases h
  · rw [hcase] at h
    dsimp only at h
    injection h with h
    subst h
    exact ⟨finalPop, rfl, rfl, rfl⟩

theorem c6_witness :
    ∃ finalPop,
      solveLoop ⟨⟨[], []⟩, 1⟩ 1 constRand 1 0
          (GraphColoringSolver.RandomPopulation ⟨⟨[], []⟩, 1⟩ 1
            constRand.initGene)
        = some finalPop ∧
      (⟨[], 0⟩ : GraphColoringSolution).Coloring = finalPop.getD 0 [] ∧
      (⟨[], 0⟩ : GraphColoringSolution).Score
        = GraphColoringSolver.CalculateFitness ⟨⟨[], []⟩, 1⟩
            (⟨[], 0⟩ : GraphColoringSolution).Coloring :=
  c6_solution_is_head_with_fresh_fitness ⟨⟨[], []⟩, 1⟩ 1 1 constRand
    ⟨[], 0⟩ rfl

/-- Claim C7 counterexample: on the zero-edge graph with ONE node, Solve does
not terminate at all (so in particular it does not return Score 0): with two
selected parents of length 1 the crossover stride is floor(1/2) = 0 and the
crossover loop never advances.  The first conjunct evaluates the fuel model
of Solve to `none`; the second shows that no fuel at all makes the crossover
call Solve performs succeed, so the `none` stands for genuine
non-termination of the Go program rather than an artifact of the fuel
choice. -/
theorem c7_counterexample :
    GraphColoringSolver.Solve ⟨⟨[[]], [0]⟩, 1⟩ 1 1 constRand = none ∧
    ¬ ∃ (fuel : Nat) (out : Chromosome),
        GraphColoringSolver.Crossover ⟨⟨[[]], [0]⟩, 1⟩ fuel [[0], [0]]
          (fun k => 0) = some out := by
  constructor
  · rfl
  · rintro ⟨fuel, out, h⟩
    have hnone := crossoverLoop_none_of_partLength_zero [[0], [0]]
      (fun k => 0) 1 fuel 0 0 [] (by norm_num)
    simp only [GraphColoringSolver.Crossover] at h
    norm_num at h
    rw [hnone] at h
    cases h

/-- Claim C7 (amended): on a zero-edge graph whose node count is not 1, with
numIterations >= 1, popSize >= 1, and random draws in their ranges (which
forces numColors >= 1, without which the Go program would panic), Solve exits
during its first iteration via the early exit on bestScore == 0 - its result
does not depend on numIterations - and returns a Solution with Score 0.  For
a zero-edge graph with exactly one node Solve never terminates (see the
counterexample), and popSize = 0 or numColors = 0 make the Go program panic,
so those cases are excluded. -/
theorem c7_zero_edges_exits_first_iteration :
    ∀ (solver : GraphColoringSolver) (numIterations popSize : Nat)
      (rnd : RandSource),
      (∀ l ∈ solver.graph.AdjecencyList, l = []) →
      solver.graph.NodeCount ≠ 1 →
      1 ≤ numIterations →
      1 ≤ popSize →
      (∀ i j, rnd.initGene i j < solver.numColors) →
      (∀ t c k, rnd.sel t c k < popSize) →
      (∀ t c k, rnd.cross t c k < 2) →
      ∃ sol, solver.Solve numIterations popSize rnd = some sol ∧
        sol.Score = 0 ∧
        solver.Solve numIterations popSize rnd
          = solver.Solve 1 popSize rnd := by
  intro solver ni ps rnd hadj hn hni hps hinit hsel hcross
  have hplen : (solver.RandomPopulation ps rnd.initGene).length = ps :=
    randomPopulation_length solver ps rnd.initGene
  have hmemlen := randomPopulation_mem_length solver ps rnd.initGene
  have hchild : ∀ c, ∃ chr, makeChild solver (rnd.sel 0 c) (rnd.cross 0 c)
      (rnd.coin 0 c) (rnd.mutColor 0 c)
      (solver.RandomPopulation ps rnd.initGene) = some (chr, 0) := by
    intro c
    refine makeChild_zero_edges solver (rnd.sel 0 c) (rnd.cross 0 c)
      (rnd.coin 0 c) (rnd.mutColor 0 c)
      (solver.RandomPopulation ps rnd.initGene) hadj ?_ hmemlen hn
    intro k
    rw [hplen]
    exact hsel 0 c k
  obtain ⟨newPop, hloop⟩ := solveLoop_early_exit solver ps rnd 0
    (solver.RandomPopulation ps rnd.initGene) hps hchild
  obtain ⟨m, rfl⟩ : ∃ m, ni = m + 1 := ⟨ni - 1, by omega⟩
  refine ⟨⟨newPop.getD 0 [],
    solver.CalculateFitness (newPop.getD 0 [])⟩, ?_, ?_, ?_⟩
  · unfold GraphColoringSolver.Solve
    rw [hloop m]
  · exact fitness_zero_of_no_edges solver hadj _
  · unfold GraphColoringSolver.Solve
    rw [hloop m, hloop 0]

theorem c7_witness :
    ∃ sol,
      GraphColoringSolver.Solve ⟨⟨[[], []], [0, 0]⟩, 1⟩ 2 1 constRand
          = some sol ∧
      sol.Score = 0 ∧
      GraphColoringSolver.Solve ⟨⟨[[], []], [0, 0]⟩, 1⟩ 2 1 constRand
        = GraphColoringSolver.Solve ⟨⟨[[], []], [0, 0]⟩, 1⟩ 1 1 constRand :=
  c7_zero_edges_exits_first_iteration ⟨⟨[[], []], [0, 0]⟩, 1⟩ 2 1 constRand
    (by decide) (by decide) (by norm_num) (by norm_num)
    (fun i j => by norm_num [constRand]) (fun t c k => by norm_num [constRand])
    (fun t c k => by norm_num [constRand])

/-- Split a character list at every occurrence of `c`, keeping empty pieces,
like Go `strings.Split` with a one-character separator. -/
def splitOnChar (c : Char) : List Char → List (List Char)
  | [] => [[]]
  | x :: xs =>
      match splitOnChar c xs with
      | [] => [[x]]
      | t :: ts => if x = c then [] :: t :: ts else (x :: t) :: ts

/-- Model of Go `strconv.ParseInt(s, 10, 32)` as the loader uses it (library
code outside this repository, modeled from its documented behavior): an
optional sign followed by at least one decimal digit, value within the signed
32-bit range; `none` models the error return. -/
def digitsToNat (l : List Char) : Option Nat :=
  if l = [] then none
  else if l.all (fun ch => ch.isDigit) then
    some (l.foldl (fun acc ch => acc * 10 + (ch.toNat - 48)) 0)
  else none

def parseIntGo : List Char → Option Int
  | '+' :: rest => (digitsToNat rest).bind (fun n =>
      if (n : Int) ≤ 2147483647 then some (n : Int) else none)
  | '-' :: rest => (digitsToNat rest).bind (fun n =>
      if (n : Int) ≤ 2147483648 then some (-(n : Int)) else none)
  | s => (digitsToNat s).bind (fun n =>
      if (n : Int) ≤ 2147483647 then some (n : Int) else none)

/-- Outcome of `LoadGraph`: a loaded graph (adjacency lists and colors as raw
Go ints), an error value returned to the caller, or a runtime panic (slice
index out of range, or `make` with a negative size). -/
inductive LoadResult where
  | ok : List (List Int) → List Int → LoadResult
  | errReturn : LoadResult
  | indexPanic : LoadResult
deriving DecidableEq

/-- `appendAt l i v` models `l[i] = append(l[i], v)`. -/
def appendAt : List (List Int) → Nat → Int → List (List Int)
  | [], _, _ => []
  | x :: xs, 0, v => (x ++ [v]) :: xs
  | x :: xs, n + 1, v => x :: appendAt xs n v

/-- The line loop of Go `LoadGraph` (main.go lines 66-94).  Empty lines and
`c` lines are skipped (as is any line whose first character is none of `c`,
`p`, `e`: the switch has no default case).  A `p` line reads token 2 as the
node count and reallocates both arrays; an `e` line reads tokens 1 and 2 and
appends `second-1` to the adjacency list of `first-1`.  Indexing a missing
token panics; a failed ParseInt returns the error; an out-of-range or
negative adjacency index panics, as does a negative node count. -/
def loadLines : List (List Char) → List (List Int) → List Int → LoadResult
  | [], adj, colors => .ok adj colors
  | line :: rest, adj, colors =>
      match line with
      | [] => loadLines rest adj colors
      | c0 :: _ =>
          if c0 = 'c' then loadLines rest adj colors
          else if c0 = 'p' then
            match (splitOnChar ' ' line)[2]? with
            | none => .indexPanic
            | some tok =>
                match parseIntGo tok with
                | none => .errReturn
                | some nodeCount =>
                    if nodeCount < 0 then .indexPanic
                    else loadLines rest (List.replicate nodeCount.toNat [])
                      (List.replicate nodeCount.toNat 0)
          else if c0 = 'e' then
            match (splitOnChar ' ' line)[1]? with
            | none => .indexPanic
            | some tok1 =>
                match parseIntGo tok1 with
                | none => .errReturn
                | some first =>
                    match (splitOnChar ' ' line)[2]? with
                    | none => .indexPanic
                    | some tok2 =>
                        match parseIntGo tok2 with
                        | none => .errReturn
                        | some second =>
                            if first - 1 < 0 then .indexPanic
                            else if adj.length ≤ (first - 1).toNat then
                              .indexPanic
                            else loadLines rest
                              (appendAt adj (first - 1).toNat (second - 1))
                              colors
          else loadLines rest adj colors

/-- Go `LoadGraph` (main.go lines 57-97) applied to file contents already in
memory: split on newlines and run the line loop starting from a nil graph. -/
def LoadGraph (contents : String) : LoadResult :=
  loadLines (splitOnChar '\n' contents.data) [] []

/-- Claim C8 counterexample: the single line `p edge` has no third token, so
Go evaluates `tokens[2]` on a 2-element slice and panics with an index out of
range - LoadGraph does not return an error value to its caller there. -/
theorem c8_counterexample :
    LoadGraph "p edge" = LoadResult.indexPanic := by
  rfl

/-- Claim C8 (amended): a NON-NUMERIC token at a significant position of a
`p` or `e` line makes LoadGraph return an error value to its caller and no
partially loaded graph - any such parse failure invalidates the whole load;
but a MISSING token on such a line is an index-out-of-range panic, not an
error return. -/
theorem c8_parse_error_vs_missing_token_panic :
    (∀ (rest : List (List Char)) (adj : List (List Int)) (colors : List Int)
        (line tok : List Char),
      line.head? = some 'p' →
      (splitOnChar ' ' line)[2]? = some tok →
      parseIntGo tok = none →
      loadLines (line :: rest) adj colors = LoadResult.errReturn) ∧
    (∀ (rest : List (List Char)) (adj : List (List Int)) (colors : List Int)
        (line : List Char),
      line.head? = some 'p' →
      (splitOnChar ' ' line)[2]? = none →
      loadLines (line :: rest) adj colors = LoadResult.indexPanic) ∧
    (∀ (rest : List (List Char)) (adj : List (List Int)) (colors : List Int)
        (line tok1 : List Char),
      line.head? = some 'e' →
      (splitOnChar ' ' line)[1]? = some tok1 →
      parseIntGo tok1 = none →
      loadLines (line :: rest) adj colors = LoadResult.errReturn) ∧
    (∀ (rest : List (List Char)) (adj : List (List Int)) (colors : List Int)
        (line : List Char),
      line.head? = some 'e' →
      (splitOnChar ' ' line)[1]? = none →
      loadLines (line :: rest) adj colors = LoadResult.indexPanic) ∧
    (∀ (rest : List (List Char)) (adj : List (List Int)) (colors : List Int)
        (line tok1 : List Char) (n1 : Int) (tok2 : List Char),
      line.head? = some 'e' →
      (splitOnChar ' ' line)[1]? = some tok1 →
      parseIntGo tok1 = some n1 →
      (splitOnChar ' ' line)[2]? = some tok2 →
      parseIntGo tok2 = none →
      loadLines (line :: rest) adj colors = LoadResult.errReturn) ∧
    (∀ (rest : List (List Char)) (adj : List (List Int)) (colors : List Int)
        (line tok1 : List Char) (n1 : Int),
      line.head? = some 'e' →
      (splitOnChar ' ' line)[1]? = some tok1 →
      parseIntGo tok1 = some n1 →
      (splitOnChar ' ' line)[2]? = none →
      loadLines (line :: rest) adj colors = LoadResult.indexPanic) := by
  refine ⟨?_, ?_, ?_, ?_, ?_, ?_⟩
  · intro rest adj colors line tok h1 h2 h3
    cases line with
    | nil => simp at h1
    | cons c0 t =>
        simp at h1
        subst h1
        simp [loadLines, h2, h3]
  · intro rest adj colors line h1 h2
    cases line with
    | nil => simp at h1
    | cons c0 t =>
        simp at h1
        subst h1
        simp [loadLines, h2]
  · intro rest adj colors line tok1 h1 h2 h3
    cases line with
    | nil => simp at h1
    | cons c0 t =>
        simp at h1
        subst h1
        simp [loadLines, h2, h3]
  · intro rest adj colors line h1 h2
    cases line with
    | nil => simp at h1
    | cons c0 t =>
        simp at h1
        subst h1
        simp [loadLines, h2]
  · intro rest adj colors line tok1 n1 tok2 h1 h2 h3 h4 h5
    cases line with
    | nil => simp at h1
    | cons c0 t =>
        simp at h1
        subst h1
        simp [loadLines, h2, h3, h4, h5]
  · intro rest adj colors line tok1 n1 h1 h2 h3 h4
    cases line with
    | nil => simp at h1
    | cons c0 t =>
        simp at h1
        subst h1
        simp [loadLines, h2, h3, h4]

theorem c8_witness :
    loadLines ["p edge abc".data] [] [] = LoadResult.errReturn ∧
    loadLines ["e xy 2".data] [] [] = LoadResult.errReturn :=
  ⟨c8_parse_error_vs_missing_token_panic.1 [] [] [] "p edge abc".data
      "abc".data rfl rfl rfl,
    c8_parse_error_vs_missing_token_panic.2.2.1 [] [] [] "e xy 2".data
      "xy".data rfl rfl rfl⟩

/-- `writeSeq writeErr start count` performs `count` successive WriteString
calls (numbers `start`, `start+1`, ...) returning the first error, like the
edge loop of SaveGraphViz does. -/
def writeSeq (writeErr : Nat → Option Nat) : Nat → Nat → Option Nat
  | _, 0 => none
  | start, count + 1 =>
      match writeErr start with
      | some e => some e
      | none => writeSeq writeErr (start + 1) count

/-- Total number of stored adjacency entries of a graph (one GraphViz edge
statement is written per entry). -/
def edgeCount (g : Graph) : Nat :=
  (g.AdjecencyList.map List.length).sum

/-- Go method `SaveGraphViz` (main.go lines 109-141) over an abstract file
system: `openOk` is whether `os.OpenFile` succeeds and `writeErr k` is the
error result of the k-th WriteString call (`none` meaning success).  When the
open fails the function returns nil (line 112), not the open error.
Otherwise: a failed header write (call 0) returns its error; the edge loop
(calls 1 .. edgeCount, one per stored adjacency entry, in order) returns its
first error; the per-node style loop (the next NodeCount calls) overwrites
`err` each iteration without checking it, so its errors are dropped; the
error of the final closing-brace write is returned. -/
def Graph.SaveGraphViz (g : Graph) (openOk : Bool)
    (writeErr : Nat → Option Nat) : Option Nat :=
  if openOk = false then none
  else
    match writeErr 0 with
    | some e => some e
    | none =>
        match writeSeq writeErr 1 (edgeCount g) with
        | some e => some e
        | none => writeErr (1 + edgeCount g + g.NodeCount)

lemma writeSeq_none : ∀ (start count : Nat),
    writeSeq (fun k => none) start count = none
  | _, 0 => rfl
  | start, count + 1 => by
      simp only [writeSeq]
      exact writeSeq_none (start + 1) count

/-- Claim C10: when the output file cannot be opened, SaveGraphViz returns
nil (no error) instead of propagating the open failure; since a fully
successful run also returns nil, the caller cannot distinguish a failed
visualization write from a successful one. -/
theorem c10_open_failure_returns_nil :
    ∀ (g : Graph) (writeErr : Nat → Option Nat),
      g.SaveGraphViz false writeErr = none ∧
      g.SaveGraphViz true (fun k => none) = none := by
  intro g writeErr
  constructor
  · rfl
  · simp only [Graph.SaveGraphViz]
    rw [writeSeq_none]
    simp

theorem c10_witness :
    Graph.SaveGraphViz ⟨[[1], []], [0, 0]⟩ false (fun k => some 7) = none :=
  (c10_open_failure_returns_nil ⟨[[1], []], [0, 0]⟩ (fun k => some 7)).1
